import Mathlib

/-!
Shallow embedding of the heuristic extraction engine of
`src/web-scraper.py` (Maybelline liquid-foundation scraper), together with
proofs of the specification's testable properties.

The document model mirrors what BeautifulSoup exposes to the extractors:
a tree of element nodes (tag, attributes, children) and text nodes
(NavigableStrings).  Each extractor in the source is translated into a
Lean function of the same name; the per-loop helpers are split out as
named functions so that the loops can be reasoned about by list induction.
-/

/-- Python whitespace characters stripped by `str.strip()` (ASCII range). -/
def isPyWs (c : Char) : Bool :=
  c == ' ' || c == '\t' || c == '\n' || c == '\r' || c == '\x0B' || c == '\x0C'

/-- Python `str.strip()` at the character-list level. -/
def trimChars (l : List Char) : List Char :=
  ((l.dropWhile isPyWs).reverse.dropWhile isPyWs).reverse

/-- Python `str.strip()`. -/
def trimS (s : String) : String := String.mk (trimChars s.data)

/-- Python `str.lower()` (ASCII case folding, which is all the scraper's
keywords need). -/
def lowerStr (s : String) : String := String.mk (s.data.map Char.toLower)

/-- Whether `p` is a prefix of the second list (Python `s.startswith`). -/
def leadsWith : List Char → List Char → Bool
  | [], _ => true
  | _ :: _, [] => false
  | p :: ps, c :: cs => p == c && leadsWith ps cs

/-- Whether `pat` occurs as a contiguous sublist (substring) of `l`. -/
def subAt (pat : List Char) : List Char → Bool
  | [] => leadsWith pat []
  | c :: cs => leadsWith pat (c :: cs) || subAt pat cs

/-- Python's substring test `pat in hay`. -/
def strContains (hay pat : String) : Bool := subAt pat.data hay.data

/-- Concatenation of a list of strings (Python `"".join`). -/
def concatAll : List String → String
  | [] => ""
  | p :: ps => p ++ concatAll ps

/-- Python `sep.join(pieces)`. -/
def joinSep (sep : String) : List String → String
  | [] => ""
  | [p] => p
  | p :: q :: ps => p ++ sep ++ joinSep sep (q :: ps)

/-- The attributes the scraper ever probes on an element.  `class` is
multi-valued in BeautifulSoup (a list of tokens); the rest are plain
strings.  `none` models an absent attribute (`has_attr` false). -/
structure Attrs where
  classes : Option (List String)
  idAttr : Option String
  ariaLabel : Option String
  titleAttr : Option String
  srcAttr : Option String
  altAttr : Option String

/-- An element with no attributes set. -/
def noAttrs : Attrs := ⟨none, none, none, none, none, none⟩

/-- A parsed HTML node: an element (Tag) or a text node (NavigableString). -/
inductive Node where
  | text (s : String)
  | elem (tag : String) (attrs : Attrs) (children : List Node)

/-- A parsed document: the top-level nodes of the soup. -/
abbrev Doc := List Node

mutual
/-- All nodes of the subtree rooted at `n`, the node itself first, in
document (depth-first, pre-) order. -/
def Node.subtree : Node → List Node
  | .text s => [.text s]
  | .elem t a cs => .elem t a cs :: forestNodes cs

/-- Document-order traversal of a forest of sibling subtrees. -/
def forestNodes : List Node → List Node
  | [] => []
  | n :: ns => n.subtree ++ forestNodes ns
end

/-- bs4 `elem.descendants`: every node strictly below `n`, document order. -/
def strictDesc : Node → List Node
  | .text _ => []
  | .elem _ _ cs => forestNodes cs

/-- The string carried by a text node, if any. -/
def textOf : Node → Option String
  | .text s => some s
  | .elem _ _ _ => none

/-- All NavigableStrings at or below `n`, in document order (bs4 `.strings`
restricted to this subtree). -/
def Node.strings (n : Node) : List String := n.subtree.filterMap textOf

/-- bs4 `get_text(strip=True)`: each descendant string stripped, empties
dropped, remainder concatenated with the default empty separator. -/
def getTextStrip (n : Node) : String :=
  concatAll ((n.strings.map trimS).filter (fun s => s ≠ ""))

/-- bs4 `get_text(separator=sep, strip=True)`. -/
def getTextSep (sep : String) (n : Node) : String :=
  joinSep sep ((n.strings.map trimS).filter (fun s => s ≠ ""))

/-- All nodes of the document in document order (bs4 `soup.descendants`). -/
def docNodes (d : Doc) : List Node := forestNodes d

/-- All NavigableStrings of the document in document order. -/
def docStrings (d : Doc) : List String := (docNodes d).filterMap textOf

/-- bs4 `soup.stripped_strings`: every string stripped, empties skipped. -/
def strippedStrings (d : Doc) : List String :=
  ((docStrings d).map trimS).filter (fun s => s ≠ "")

/-- bs4 `.stripped_strings` of a single element's subtree. -/
def nodeStrippedStrings (n : Node) : List String :=
  ((n.strings.map trimS).filter (fun s => s ≠ ""))

/-- Whether a node is an element carrying one of the given tag names. -/
def isElemTag (tags : List String) : Node → Bool
  | .text _ => false
  | .elem t _ _ => tags.contains t

/-- soupsieve `soup.select("t1, t2")`: all elements whose tag is in the
list, in document order. -/
def selectTags (tags : List String) (d : Doc) : List Node :=
  (docNodes d).filter (isElemTag tags)

/-- Lift an attribute predicate to nodes; bs4 `find_all` with a function
applies the function to Tags only, never to text nodes. -/
def elemPred (p : String → Attrs → Bool) : Node → Bool
  | .elem t a _ => p t a
  | .text _ => false

/-- bs4 `soup.find_all(function)` over the whole document. -/
def elemsWhere (p : String → Attrs → Bool) (d : Doc) : List Node :=
  (docNodes d).filter (elemPred p)

/-- bs4 `container.find(function)`: first matching Tag strictly below. -/
def findDesc (p : Node → Bool) (n : Node) : Option Node :=
  (strictDesc n).find? p

/-- Attributes of a node (text nodes carry none). -/
def attrsOf : Node → Attrs
  | .elem _ a _ => a
  | .text _ => noAttrs

/-- Python `tag.has_attr('class') and any(sub in c.lower() for c in
tag['class'])`. -/
def classHas (sub : String) (a : Attrs) : Bool :=
  match a.classes with
  | some cs => cs.any (fun c => strContains (lowerStr c) sub)
  | none => false

/-- Python `tag.has_attr(k) and sub in tag[k].lower()` for a single-valued
attribute. -/
def optContains (sub : String) (o : Option String) : Bool :=
  match o with
  | some v => strContains (lowerStr v) sub
  | none => false

/-! ## Field extractors (src/web-scraper.py lines 9-57) -/

/-- Loop body of `extract_name`: first heading whose stripped text is
longer than 4 characters. -/
def nameScan : List Node → String
  | [] => "N/A"
  | n :: ns =>
    let text := getTextStrip n
    if 4 < text.length then text else nameScan ns

/-- Source `extract_name` (lines 9-14): scan `soup.select('h1, h2')`. -/
def extract_name (d : Doc) : String := nameScan (selectTags ["h1", "h2"] d)

/-- Loop body of `extract_price`: first span/div whose lower-cased
stripped text contains a currency marker; that lower-cased text is
returned. -/
def priceScan : List Node → String
  | [] => "N/A"
  | n :: ns =>
    let txt := lowerStr (getTextStrip n)
    if strContains txt "$" || strContains txt "usd" then txt else priceScan ns

/-- Source `extract_price` (lines 16-21): scan `soup.select('span, div')`. -/
def extract_price (d : Doc) : String := priceScan (selectTags ["span", "div"] d)

/-- CSS selector `img[src*="product"]`: an img element whose `src`
attribute exists and contains "product" (case-sensitive attribute match). -/
def imgSrcPred (t : String) (a : Attrs) : Bool :=
  t == "img" && (match a.srcAttr with
                 | some s => strContains s "product"
                 | none => false)

/-- Source `extract_image` (lines 23-28): `select_one('img[src*="product"]')`,
then `img_tag['src']`; the try/except converts any failure (no match, or
a matched element without the attribute) into "N/A". -/
def extract_image (d : Doc) : String :=
  match (docNodes d).find? (elemPred imgSrcPred) with
  | some n =>
    (match (attrsOf n).srcAttr with
     | some s => s
     | none => "N/A")
  | none => "N/A"

/-- Loop body of `extract_ingredients`: first div/section/p whose
lower-cased stripped text contains "ingredient"; its space-separated text
is returned. -/
def ingScan : List Node → String
  | [] => "N/A"
  | n :: ns =>
    if strContains (lowerStr (getTextStrip n)) "ingredient" then getTextSep " " n
    else ingScan ns

/-- Source `extract_ingredients` (lines 30-34): scan `soup.select('div, section, p')`
(the source uses `soup.select`-equivalent iteration over those tags). -/
def extract_ingredients (d : Doc) : String :=
  ingScan (selectTags ["div", "section", "p"] d)

/-- The four attribute scans of `extract_shades` (lines 39-43), concatenated
in source order without deduplicating the element list itself. -/
def shadeSelectors (d : Doc) : List Node :=
  elemsWhere (fun _ a => classHas "shade" a) d
    ++ elemsWhere (fun _ a => optContains "shade" a.idAttr) d
    ++ elemsWhere (fun _ a => optContains "shade" a.ariaLabel) d
    ++ elemsWhere (fun _ a => optContains "shade" a.titleAttr) d

/-- Harvest of one descendant (lines 46-54).  Every bs4 node — Tag or
NavigableString — responds to `get_text`, so the `hasattr(descendant,
'get_text')` test always succeeds and the `alt`/`title` fallback branches
of the source are unreachable; the text is kept only when non-empty. -/
def harvestNode (n : Node) : List String :=
  let txt := getTextStrip n
  if txt ≠ "" then [txt] else []

/-- All harvested strings, in harvest order and with duplicates (the
source accumulates them into a Python set). -/
def harvestAll (d : Doc) : List String :=
  ((shadeSelectors d).map (fun e => (strictDesc e).map harvestNode)).flatten.flatten

/-- First-occurrence deduplication: the canonical representative of the
Python set `shade_candidates` as a list. -/
def dedupAux : List String → List String → List String
  | _, [] => []
  | seen, x :: xs =>
    if x ∈ seen then dedupAux seen xs else x :: dedupAux (x :: seen) xs

/-- The set `shade_candidates` (lines 37-54) as a duplicate-free list. -/
def shadeCandidates (d : Doc) : List String := dedupAux [] (harvestAll d)

/-- Lines 56-57 applied to one enumeration of the candidate set:
`list(filter(lambda x: x.strip() != '', shade_candidates))`, then
`shades if shades else ["N/A"]`.  Python set iteration order is not
fixed, so this is stated over an arbitrary enumeration. -/
def shadesFinalize (candidates : List String) : List String :=
  let shades := candidates.filter (fun x => trimS x ≠ "")
  if shades.isEmpty then ["N/A"] else shades

/-- Source `extract_shades` (lines 36-57). -/
def extract_shades (d : Doc) : List String := shadesFinalize (shadeCandidates d)

/-! ## Sales proxies (lines 61-89) -/

/-- Scanner for the regex `(\d[\d,]*)`: runs start on a digit and extend
greedily over digits and commas; the accumulator holds the current run
reversed. -/
def runsAux : List Char → Option (List Char) → List (List Char)
  | [], none => []
  | [], some acc => [acc.reverse]
  | c :: rest, none =>
    if c.isDigit then runsAux rest (some [c]) else runsAux rest none
  | c :: rest, some acc =>
    if c.isDigit || c == ',' then runsAux rest (some (c :: acc))
    else acc.reverse :: runsAux rest none

/-- Python `re.findall(r'(\d[\d,]*)', s)`. -/
def findCommaRuns (s : String) : List String :=
  (runsAux s.data none).map String.mk

/-- Loop of lines 65-71: for the first qualifying text whose regex match
list is non-empty, return `matches[0].replace(',', '')` and break. -/
def reviewCountScan : List String → String
  | [] => "N/A"
  | t :: ts =>
    match findCommaRuns t with
    | [] => reviewCountScan ts
    | m :: _ => String.mk (m.data.filter (fun c => c ≠ ','))

/-- Line 64: `soup.find_all(string=lambda text: text and ("review" in
text.lower() or "rating" in text.lower()))`. -/
def reviewCountTexts (d : Doc) : List String :=
  (docStrings d).filter
    (fun t => t != "" &&
      (strContains (lowerStr t) "review" || strContains (lowerStr t) "rating"))

/-- Line 74: bestseller keyword anywhere in the stripped strings. -/
def bestsellerFlag (d : Doc) : Bool :=
  (strippedStrings d).any (fun s => strContains (lowerStr s) "bestseller")

/-- Line 78: the fixed list of out-of-stock phrases. -/
def stock_out_indicators : List String := ["out of stock", "sold out", "unavailable"]

/-- Line 79: `" ".join(soup.stripped_strings).lower()`. -/
def pageTextOf (d : Doc) : String := lowerStr (joinSep " " (strippedStrings d))

/-- Lines 77-83: phrase loop with first-match break. -/
def stockScan : List String → String → String
  | [], _ => "In stock"
  | p :: ps, txt => if strContains txt p then "Out of stock" else stockScan ps txt

/-- The dictionary returned by `extract_sales_proxies` (lines 85-89). -/
structure SalesProxies where
  number_of_reviews : String
  bestseller : Bool
  stock_status : String

/-- Source `extract_sales_proxies` (lines 61-89). -/
def extract_sales_proxies (d : Doc) : SalesProxies :=
  { number_of_reviews := reviewCountScan (reviewCountTexts d)
  , bestseller := bestsellerFlag d
  , stock_status := stockScan stock_out_indicators (pageTextOf d) }

/-! ## Review extractor (lines 93-145) and aggregator (lines 149-176) -/

/-- One extracted review record (the dictionary built at lines 136-143).
`star_rating` is `Option String` because the Python expression
`rating_tag.get('aria-label') or rating_tag.get('alt')` can in principle
evaluate to `None`. -/
structure ReviewRecord where
  star_rating : Option String
  review_text : String
  review_date : String
  reviewer : String
  verified_purchase : Bool
  helpful_votes : String

/-- Python `x or y` on optional strings: `x` when present and non-empty
(truthy), else `y`. -/
def pyOr (x y : Option String) : Option String :=
  match x with
  | some s => if s ≠ "" then some s else y
  | none => y

/-- Python `tag.has_attr('class') and sub in tag['class'][0].lower()`: only
the first class token is inspected.  (On a class attribute parsed to an
empty token list the source would raise IndexError; that corner is modelled
as a non-match and is exercised by no claim.) -/
def classHeadHas (sub : String) (a : Attrs) : Bool :=
  match a.classes with
  | some (c :: _) => strContains (lowerStr c) sub
  | some [] => false
  | none => false

/-- Same with several candidate substrings (line 119). -/
def classHeadHasAny (subs : List String) (a : Attrs) : Bool :=
  match a.classes with
  | some (c :: _) => subs.any (fun x => strContains (lowerStr c) x)
  | some [] => false
  | none => false

/-- Python `re.search(r'(\d+)', s)`: leftmost maximal digit run. -/
def firstDigitRun (l : List Char) : Option String :=
  match l.dropWhile (fun c => !c.isDigit) with
  | [] => none
  | c :: rest => some (String.mk (c :: rest.takeWhile Char.isDigit))

/-- Lines 127-134: scan the container's stripped strings for one containing
"found this helpful"; take its first digit run and break; keep scanning if
that string has no digits. -/
def helpfulScan : List String → String
  | [] => "N/A"
  | s :: rest =>
    if strContains (lowerStr s) "found this helpful" then
      match firstDigitRun s.data with
      | some d => d
      | none => helpfulScan rest
    else helpfulScan rest

/-- Per-container body of `extract_reviews` (lines 99-143). -/
def reviewOfContainer (c : Node) : ReviewRecord :=
  let ratingTag :=
    match findDesc (elemPred (fun _ a => optContains "star" a.ariaLabel)) c with
    | some t => some t
    | none =>
      findDesc (elemPred (fun t a => t == "img" &&
        (match a.altAttr with
         | some al => al != "" && strContains (lowerStr al) "star"
         | none => false))) c
  { star_rating :=
      match ratingTag with
      | none => some "N/A"
      | some t => pyOr (attrsOf t).ariaLabel (attrsOf t).altAttr
  , review_text := getTextSep " " c
  , review_date :=
      match findDesc (elemPred (fun _ a => classHeadHas "date" a)) c with
      | some t => getTextStrip t
      | none => "N/A"
  , reviewer :=
      match findDesc (elemPred (fun _ a =>
          classHeadHasAny ["author", "name", "location"] a)) c with
      | some t => getTextStrip t
      | none => "N/A"
  , verified_purchase :=
      (nodeStrippedStrings c).any
        (fun s => strContains (lowerStr s) "verified purchase")
  , helpful_votes := helpfulScan (nodeStrippedStrings c) }

/-- Line 97: the review containers — elements with a class token containing
"review". -/
def reviewContainers (d : Doc) : List Node :=
  elemsWhere (fun _ a => classHas "review" a) d

/-- Source `extract_reviews` (lines 93-145). -/
def extract_reviews (d : Doc) : List ReviewRecord :=
  (reviewContainers d).map reviewOfContainer

/-- How Python renders the f-string interpolation of an optional string
(`None` prints as "None"). -/
def pyStrOfOpt : Option String → String
  | some s => s
  | none => "None"

/-- How Python renders a bool in an f-string. -/
def pyStrOfBool : Bool → String
  | true => "True"
  | false => "False"

/-- Python slice `s[:100]`. -/
def take100 (s : String) : String := String.mk (s.data.take 100)

/-- Line 171: the flattened per-review snippet. -/
def reviewSnippet (r : ReviewRecord) : String :=
  pyStrOfOpt r.star_rating ++ " | " ++ take100 r.review_text ++ " | "
    ++ r.review_date ++ " | Verified: " ++ pyStrOfBool r.verified_purchase
    ++ " | Helpful: " ++ r.helpful_votes

/-- The `product_info` dictionary of `scrape_product` after the updates of
lines 173-174. -/
structure ProductRecord where
  url : String
  name : String
  price : String
  type : String
  shades : List String
  image : String
  ingredients : String
  number_of_reviews : String
  bestseller : Bool
  stock_status : String
  reviews : String

/-- Source `scrape_product` (lines 149-176) minus the external fetch: the record
built from one parsed document. -/
def scrape_product (url : String) (d : Doc) : ProductRecord :=
  let sales := extract_sales_proxies d
  let reviews_summary := (extract_reviews d).map reviewSnippet
  { url := url
  , name := extract_name d
  , price := extract_price d
  , type := "Foundation"
  , shades := extract_shades d
  , image := extract_image d
  , ingredients := extract_ingredients d
  , number_of_reviews := sales.number_of_reviews
  , bestseller := sales.bestseller
  , stock_status := sales.stock_status
  , reviews :=
      if reviews_summary.isEmpty then "N/A" else joinSep " || " reviews_summary }

/-! ## Concrete documents used by the witnesses and counterexamples -/

/-- The spec's example heading document. -/
def velvetDoc : Doc := [Node.elem "h1" noAttrs [Node.text "Velvet Matte Foundation"]]

/-- The spec's short-heading document. -/
def spfDoc : Doc := [Node.elem "h1" noAttrs [Node.text "SPF"]]

/-- A document whose only long heading is an h3. -/
def h3Doc : Doc := [Node.elem "h3" noAttrs [Node.text "Velvet Matte Foundation"]]

/-- The spec's review-count example page: one text node
"4.8 stars (1,234 Reviews)". -/
def ratingDoc : Doc := [Node.elem "div" noAttrs [Node.text "4.8 stars (1,234 Reviews)"]]

/-- A page whose text contains "Temporarily Out Of Stock". -/
def tosDoc : Doc := [Node.elem "p" noAttrs [Node.text "  Temporarily Out Of Stock  "]]

/-- The spec's product-image example. -/
def imgDoc : Doc :=
  [Node.elem "img" ⟨none, none, none, none, some "/assets/product-123.jpg", none⟩ []]

/-- A shade picker with a duplicated shade name. -/
def shadeDoc : Doc :=
  [Node.elem "div" ⟨some ["shade-picker"], none, none, none, none, none⟩
    [Node.elem "span" noAttrs [Node.text "Toffee"],
     Node.elem "span" noAttrs [Node.text "Ivory"],
     Node.elem "span" noAttrs [Node.text "Toffee"]]]

/-! ## Helper lemmas -/

theorem str_eq_empty_iff (s : String) : s = "" ↔ s.data = [] := by
  cases s
  simp [String.ext_iff]

theorem str_ne_empty_iff (s : String) : s ≠ "" ↔ s.data ≠ [] := by
  simp [str_eq_empty_iff]

theorem leadsWith_nil_right (pat : List Char) (h : leadsWith pat [] = true) :
    pat = [] := by
  cases pat with
  | nil => rfl
  | cons c cs => simp [leadsWith] at h

/-- A non-empty pattern cannot occur inside the empty string. -/
theorem strContains_hay_ne {hay pat : String}
    (h : strContains hay pat = true) (hp : pat ≠ "") : hay ≠ "" := by
  intro he
  rw [str_eq_empty_iff] at he
  rw [strContains, he] at h
  exact hp ((str_eq_empty_iff pat).mpr (leadsWith_nil_right pat.data h))

theorem lowerStr_data (s : String) : (lowerStr s).data = s.data.map Char.toLower := rfl

theorem lowerStr_ne_empty {s : String} (h : lowerStr s ≠ "") : s ≠ "" := by
  intro he
  subst he
  exact h rfl

theorem data_append (a b : String) : (a ++ b).data = a.data ++ b.data := by
  cases a
  cases b
  rfl

theorem append_ne_empty_left {a : String} (b : String) (ha : a ≠ "") : a ++ b ≠ "" := by
  rw [str_ne_empty_iff, data_append]
  rw [str_ne_empty_iff] at ha
  simp [ha]

theorem joinSep_ne_empty (sep p : String) (ps : List String) (hp : p ≠ "") :
    joinSep sep (p :: ps) ≠ "" := by
  cases ps with
  | nil => simpa [joinSep] using hp
  | cons q qs =>
    rw [joinSep]
    exact append_ne_empty_left _ (append_ne_empty_left _ hp)

theorem concatAll_ne_empty (p : String) (ps : List String) (hp : p ≠ "") :
    concatAll (p :: ps) ≠ "" := by
  rw [concatAll]
  exact append_ne_empty_left _ hp

/-- If the strip-joined text of a node is non-empty then so is its
space-joined text: both are built from the same list of stripped pieces. -/
theorem getTextSep_ne_empty (sep : String) (n : Node) (h : getTextStrip n ≠ "") :
    getTextSep sep n ≠ "" := by
  rcases hcase : ((n.strings.map trimS).filter (fun s => s ≠ "")) with _ | ⟨p, ps⟩
  · exact absurd (by rw [getTextStrip, hcase]; rfl) h
  · have hmem : p ∈ (n.strings.map trimS).filter (fun s => s ≠ "") := by
      rw [hcase]; exact List.mem_cons_self _ _
    have hp : p ≠ "" := by simpa using (List.mem_filter.mp hmem).2
    rw [getTextSep, hcase]
    exact joinSep_ne_empty sep p ps hp

/-! ## Loop characterizations -/

/-- The `extract_name` loop is first-match search. -/
theorem nameScan_eq (l : List Node) :
    nameScan l =
      (match l.find? (fun n => 4 < (getTextStrip n).length) with
       | some n => getTextStrip n
       | none => "N/A") := by
  induction l with
  | nil => rfl
  | cons n ns ih =>
    by_cases h : 4 < (getTextStrip n).length
    · simp [nameScan, List.find?_cons_of_pos, h]
    · rw [nameScan]
      simp only [h, if_false]
      rw [ih, List.find?_cons_of_neg]
      simpa using h

/-- The `extract_price` loop is first-match search returning the
lower-cased stripped text it tested. -/
theorem priceScan_eq (l : List Node) :
    priceScan l =
      (match l.find? (fun n => strContains (lowerStr (getTextStrip n)) "$" ||
                               strContains (lowerStr (getTextStrip n)) "usd") with
       | some n => lowerStr (getTextStrip n)
       | none => "N/A") := by
  induction l with
  | nil => rfl
  | cons n ns ih =>
    rw [priceScan, List.find?_cons]
    by_cases h : (strContains (lowerStr (getTextStrip n)) "$" ||
                  strContains (lowerStr (getTextStrip n)) "usd") = true
    · simp [h]
    · simp only [Bool.not_eq_true] at h
      simp [h, ih]

theorem nameScan_ne_empty (l : List Node) : nameScan l ≠ "" := by
  induction l with
  | nil => decide
  | cons n ns ih =>
    rw [nameScan]
    by_cases h : 4 < (getTextStrip n).length
    · simp only [h, if_true]
      rw [str_ne_empty_iff]
      intro hnil
      rw [String.length, hnil] at h
      simp at h
    · simpa [h] using ih

theorem priceScan_ne_empty (l : List Node) : priceScan l ≠ "" := by
  induction l with
  | nil => decide
  | cons n ns ih =>
    rw [priceScan]
    by_cases h : (strContains (lowerStr (getTextStrip n)) "$" ||
                  strContains (lowerStr (getTextStrip n)) "usd") = true
    · simp only [h, if_true]
      rcases Bool.or_eq_true _ _ |>.mp h with h1 | h2
      · exact strContains_hay_ne h1 (by decide)
      · exact strContains_hay_ne h2 (by decide)
    · simpa [h] using ih

theorem ingScan_ne_empty (l : List Node) : ingScan l ≠ "" := by
  induction l with
  | nil => decide
  | cons n ns ih =>
    rw [ingScan]
    by_cases h : strContains (lowerStr (getTextStrip n)) "ingredient" = true
    · simp only [h, if_true]
      exact getTextSep_ne_empty " " n
        (lowerStr_ne_empty (strContains_hay_ne h (by decide)))
    · simpa [h] using ih

/-- Every run the comma-run scanner emits contains a digit: the scanner
only opens a run on a digit and the accumulator keeps it. -/
theorem runsAux_mem_digit :
    ∀ (l : List Char) (acc : Option (List Char)),
      (∀ a, acc = some a → ∃ c ∈ a, c.isDigit = true) →
      ∀ r ∈ runsAux l acc, ∃ c ∈ r, c.isDigit = true := by
  intro l
  induction l with
  | nil =>
    intro acc hacc r hr
    cases acc with
    | none => simp [runsAux] at hr
    | some a =>
      simp only [runsAux, List.mem_singleton] at hr
      subst hr
      obtain ⟨c, hc, hd⟩ := hacc a rfl
      exact ⟨c, List.mem_reverse.mpr hc, hd⟩
  | cons ch rest ih =>
    intro acc hacc r hr
    cases acc with
    | none =>
      rw [runsAux] at hr
      by_cases hd : ch.isDigit = true
      · rw [if_pos hd] at hr
        exact ih (some [ch])
          (by intro a ha; cases ha; exact ⟨ch, List.mem_singleton_self ch, hd⟩) r hr
      · rw [if_neg hd] at hr
        exact ih none (by intro a ha; cases ha) r hr
    | some a =>
      rw [runsAux] at hr
      by_cases hcont : (ch.isDigit || ch == ',') = true
      · rw [if_pos hcont] at hr
        refine ih (some (ch :: a)) ?_ r hr
        intro b hb
        cases hb
        obtain ⟨c, hc, hcd⟩ := hacc a rfl
        exact ⟨c, List.mem_cons_of_mem _ hc, hcd⟩
      · rw [if_neg hcont] at hr
        rcases List.mem_cons.mp hr with h1 | h2
        · subst h1
          obtain ⟨c, hc, hcd⟩ := hacc a rfl
          exact ⟨c, List.mem_reverse.mpr hc, hcd⟩
        · exact ih none (by intro b hb; cases hb) r h2

theorem digit_ne_comma {c : Char} (h : c.isDigit = true) : c ≠ ',' := by
  intro he
  subst he
  exact absurd h (by decide)

theorem reviewCountScan_ne_empty (l : List String) : reviewCountScan l ≠ "" := by
  induction l with
  | nil => decide
  | cons t ts ih =>
    rcases hm : findCommaRuns t with _ | ⟨m, ms⟩
    · simpa only [reviewCountScan, hm] using ih
    · simp only [reviewCountScan, hm]
      have hmem : m ∈ findCommaRuns t := by rw [hm]; exact List.mem_cons_self _ _
      rw [findCommaRuns] at hmem
      obtain ⟨r, hr, hrm⟩ := List.mem_map.mp hmem
      obtain ⟨c, hc, hcd⟩ :=
        runsAux_mem_digit t.data none (by intro a ha; cases ha) r hr
      rw [str_ne_empty_iff]
      have hdata : m.data = r := by rw [← hrm]
      rw [hdata]
      intro hnil
      have hnil' : r.filter (fun c => decide (c ≠ ',')) = [] := hnil
      have : c ∈ r.filter (fun c => decide (c ≠ ',')) := by
        apply List.mem_filter.mpr
        exact ⟨hc, by simpa using digit_ne_comma hcd⟩
      rw [hnil'] at this
      exact List.not_mem_nil c this

theorem stockScan_out_iff (ps : List String) (txt : String) :
    stockScan ps txt = "Out of stock" ↔ ∃ p ∈ ps, strContains txt p = true := by
  induction ps with
  | nil =>
    constructor
    · intro h
      rw [stockScan] at h
      exact absurd h (by decide)
    · rintro ⟨p, hp, _⟩
      exact absurd hp (List.not_mem_nil p)
  | cons p ps ih =>
    rw [stockScan]
    by_cases h : strContains txt p = true
    · constructor
      · intro _
        exact ⟨p, List.mem_cons_self _ _, h⟩
      · intro _
        rw [if_pos h]
    · rw [if_neg h, ih]
      constructor
      · rintro ⟨q, hq, hqc⟩
        exact ⟨q, List.mem_cons_of_mem _ hq, hqc⟩
      · rintro ⟨q, hq, hqc⟩
        rcases List.mem_cons.mp hq with h1 | h2
        · subst h1
          exact absurd hqc h
        · exact ⟨q, h2, hqc⟩

theorem stockScan_cases (ps : List String) (txt : String) :
    stockScan ps txt = "Out of stock" ∨ stockScan ps txt = "In stock" := by
  induction ps with
  | nil => right; rfl
  | cons p ps ih =>
    rw [stockScan]
    by_cases h : strContains txt p = true
    · left; simp [h]
    · simpa [h] using ih

theorem stockScan_ne_empty (ps : List String) (txt : String) :
    stockScan ps txt ≠ "" := by
  rcases stockScan_cases ps txt with h | h <;> rw [h] <;> decide

theorem mem_dedupAux (x : String) :
    ∀ (l seen : List String), x ∈ dedupAux seen l ↔ x ∈ l ∧ x ∉ seen := by
  intro l
  induction l with
  | nil =>
    intro seen
    simp [dedupAux]
  | cons y ys ih =>
    intro seen
    rw [dedupAux]
    by_cases hy : y ∈ seen
    · rw [if_pos hy, ih]
      constructor
      · rintro ⟨h1, h2⟩
        exact ⟨List.mem_cons_of_mem _ h1, h2⟩
      · rintro ⟨h1, h2⟩
        rcases List.mem_cons.mp h1 with rfl | h3
        · exact absurd hy h2
        · exact ⟨h3, h2⟩
    · rw [if_neg hy]
      constructor
      · intro hx
        rcases List.mem_cons.mp hx with rfl | h3
        · exact ⟨List.mem_cons_self _ _, hy⟩
        · obtain ⟨h4, h5⟩ := (ih (y :: seen)).mp h3
          exact ⟨List.mem_cons_of_mem _ h4,
                 fun hc => h5 (List.mem_cons_of_mem _ hc)⟩
      · rintro ⟨h1, h2⟩
        rcases List.mem_cons.mp h1 with rfl | h3
        · exact List.mem_cons_self _ _
        · by_cases hxy : x = y
          · subst hxy
            exact List.mem_cons_self _ _
          · refine List.mem_cons_of_mem _ ((ih (y :: seen)).mpr ⟨h3, ?_⟩)
            intro hc
            rcases List.mem_cons.mp hc with h4 | h4
            · exact hxy h4
            · exact h2 h4

theorem nodup_dedupAux : ∀ (l seen : List String), (dedupAux seen l).Nodup := by
  intro l
  induction l with
  | nil =>
    intro seen
    simp [dedupAux]
  | cons y ys ih =>
    intro seen
    rw [dedupAux]
    by_cases hy : y ∈ seen
    · rw [if_pos hy]
      exact ih seen
    · rw [if_neg hy]
      refine List.nodup_cons.mpr ⟨?_, ih (y :: seen)⟩
      intro hc
      exact ((mem_dedupAux y ys (y :: seen)).mp hc).2 (List.mem_cons_self _ _)

/-- Case analysis of `extract_image`: either some img with a product `src`
is found — the attribute then necessarily exists, contains "product" and
is returned in full — or none is and the sentinel comes back. -/
theorem extract_image_cases (d : Doc) :
    (∃ n, (docNodes d).find? (elemPred imgSrcPred) = some n ∧
       ∃ s, (attrsOf n).srcAttr = some s ∧ strContains s "product" = true ∧
         extract_image d = s) ∨
    ((docNodes d).find? (elemPred imgSrcPred) = none ∧ extract_image d = "N/A") := by
  rcases hfind : (docNodes d).find? (elemPred imgSrcPred) with _ | n
  · right
    exact ⟨rfl, by rw [extract_image, hfind]⟩
  · left
    have hp := List.find?_some hfind
    cases n with
    | text s => simp [elemPred] at hp
    | elem t a cs =>
      simp only [elemPred, imgSrcPred, Bool.and_eq_true] at hp
      rcases ha : a.srcAttr with _ | s
      · rw [ha] at hp
        simp at hp
      · rw [ha] at hp
        refine ⟨_, rfl, s, ha, hp.2, ?_⟩
        rw [extract_image, hfind]
        simp [attrsOf, ha]

/-! ## Claim theorems -/

/-- C1 — code behavior at the spec's example input.  On a document whose
single text node is "4.8 stars (1,234 Reviews)" the source takes
`matches[0]` of `re.findall(r'(\d[\d,]*)', text)`, which is the star
rating's leading digit "4", not the review count "1234" promised by the
spec (and by the source's own comment about inputs like
"4.5 stars (200 Reviews)"). -/
theorem number_of_reviews_on_rating_text :
    docStrings ratingDoc = ["4.8 stars (1,234 Reviews)"] ∧
    findCommaRuns "4.8 stars (1,234 Reviews)" = ["4", "8", "1,234"] ∧
    (extract_sales_proxies ratingDoc).number_of_reviews = "4" ∧
    (extract_sales_proxies ratingDoc).number_of_reviews ≠ "1234" := by
  refine ⟨rfl, by decide, by decide, by decide⟩

/-- C2 — the Price Extractor returns, for the first span/div whose
lower-cased stripped text contains "$" or "usd", exactly that matched
text, with no further transformation; when no element matches it returns
the sentinel "N/A". -/
theorem extract_price_spec (d : Doc) :
    extract_price d =
      (match (selectTags ["span", "div"] d).find?
          (fun n => strContains (lowerStr (getTextStrip n)) "$" ||
                    strContains (lowerStr (getTextStrip n)) "usd") with
       | some n => lowerStr (getTextStrip n)
       | none => "N/A") :=
  priceScan_eq _

/-- C3 — every scalar field of the produced ProductRecord (name, price,
type, image, ingredients, number_of_reviews, stock_status) is a non-empty
string: each extractor returns either a non-empty extracted value or the
non-empty sentinel "N/A", and the typed record cannot drop a field. -/
theorem scrape_product_scalar_fields (url : String) (d : Doc) :
    (scrape_product url d).name ≠ "" ∧
    (scrape_product url d).price ≠ "" ∧
    (scrape_product url d).type ≠ "" ∧
    (scrape_product url d).image ≠ "" ∧
    (scrape_product url d).ingredients ≠ "" ∧
    (scrape_product url d).number_of_reviews ≠ "" ∧
    (scrape_product url d).stock_status ≠ "" := by
  refine ⟨nameScan_ne_empty _, priceScan_ne_empty _,
          (show ("Foundation" : String) ≠ "" by decide), ?_,
          ingScan_ne_empty _, reviewCountScan_ne_empty _, stockScan_ne_empty _ _⟩
  show extract_image d ≠ ""
  rcases extract_image_cases d with ⟨n, _, s, _, hc, he⟩ | ⟨_, he⟩
  · rw [he]
    exact strContains_hay_ne hc (by decide)
  · rw [he]
    decide

/-- C4 — the Shade Extractor never returns an empty sequence: when every
harvested string is filtered away it returns the one-element sentinel
sequence, and otherwise it returns exactly the harvested set's members
(duplicates collapsed) as a duplicate-free sequence. -/
theorem extract_shades_spec (d : Doc) :
    extract_shades d ≠ [] ∧
    ((harvestAll d).filter (fun x => trimS x ≠ "") = [] →
      extract_shades d = ["N/A"]) ∧
    ((harvestAll d).filter (fun x => trimS x ≠ "") ≠ [] →
      (extract_shades d).toFinset =
        ((harvestAll d).filter (fun x => trimS x ≠ "")).toFinset ∧
      (extract_shades d).Nodup) := by
  have hmem : ∀ x, x ∈ (shadeCandidates d).filter (fun x => trimS x ≠ "") ↔
      x ∈ (harvestAll d).filter (fun x => trimS x ≠ "") := by
    intro x
    simp only [List.mem_filter]
    rw [shadeCandidates]
    constructor
    · rintro ⟨h1, h2⟩
      exact ⟨((mem_dedupAux x _ _).mp h1).1, h2⟩
    · rintro ⟨h1, h2⟩
      exact ⟨(mem_dedupAux x _ _).mpr ⟨h1, List.not_mem_nil x⟩, h2⟩
  have hnil : ((shadeCandidates d).filter (fun x => trimS x ≠ "") = []) ↔
      ((harvestAll d).filter (fun x => trimS x ≠ "") = []) := by
    simp only [List.eq_nil_iff_forall_not_mem]
    constructor <;> intro h x hx
    · exact h x ((hmem x).mpr hx)
    · exact h x ((hmem x).mp hx)
  have hdef : extract_shades d =
      (if ((shadeCandidates d).filter (fun x => trimS x ≠ "")).isEmpty then ["N/A"]
       else (shadeCandidates d).filter (fun x => trimS x ≠ "")) := rfl
  refine ⟨?_, ?_, ?_⟩
  · rw [hdef]
    cases hb : ((shadeCandidates d).filter (fun x => trimS x ≠ "")).isEmpty with
    | true => simp
    | false =>
      simp only [Bool.false_eq_true, if_false]
      intro hc
      rw [hc] at hb
      exact absurd hb (by decide)
  · intro hF
    have hS : ((shadeCandidates d).filter (fun x => trimS x ≠ "")) = [] :=
      hnil.mpr hF
    rw [hdef, hS]
    rfl
  · intro hF
    have hS : ((shadeCandidates d).filter (fun x => trimS x ≠ "")) ≠ [] :=
      fun hc => hF (hnil.mp hc)
    have hout : extract_shades d =
        (shadeCandidates d).filter (fun x => trimS x ≠ "") := by
      rw [hdef]
      cases hb : ((shadeCandidates d).filter (fun x => trimS x ≠ "")).isEmpty with
      | true => exact absurd (List.isEmpty_iff.mp hb) hS
      | false => simp
    constructor
    · rw [hout]
      apply Finset.ext
      intro x
      simp only [List.mem_toFinset]
      exact hmem x
    · rw [hout]
      exact List.Nodup.filter _ (nodup_dedupAux _ _)

/-- C4 witness: on the shade-picker document the result is non-empty and
matches the harvested set; on a shade-free document it is the sentinel
sequence. -/
theorem extract_shades_spec_witness :
    extract_shades shadeDoc ≠ [] ∧
    (extract_shades shadeDoc).toFinset =
      ((harvestAll shadeDoc).filter (fun x => trimS x ≠ "")).toFinset ∧
    extract_shades velvetDoc = ["N/A"] :=
  ⟨(extract_shades_spec shadeDoc).1,
   ((extract_shades_spec shadeDoc).2.2 (by decide)).1,
   (extract_shades_spec velvetDoc).2.1 (by decide)⟩

/-- C5 — with no element whose class tokens contain "review", the Review
Extractor returns the empty sequence and the aggregated record's
flattened `reviews` field is the sentinel "N/A". -/
theorem extract_reviews_empty (url : String) (d : Doc)
    (h : reviewContainers d = []) :
    extract_reviews d = [] ∧ (scrape_product url d).reviews = "N/A" := by
  have h1 : extract_reviews d = [] := by
    rw [extract_reviews, h]
    rfl
  refine ⟨h1, ?_⟩
  show (if ((extract_reviews d).map reviewSnippet).isEmpty then "N/A"
        else joinSep " || " ((extract_reviews d).map reviewSnippet)) = "N/A"
  rw [h1]
  rfl

/-- C5 witness at a document with no review-classed element. -/
theorem extract_reviews_empty_witness :
    extract_reviews velvetDoc = [] ∧ (scrape_product "u" velvetDoc).reviews = "N/A" :=
  extract_reviews_empty "u" velvetDoc rfl

/-- C6 — stock_status is "Out of stock" iff the lower-cased join of all
stripped page text contains one of the three literal phrases, and is one
of the two enum values always; in particular a page containing
"Temporarily Out Of Stock" yields "Out of stock". -/
theorem stock_status_spec :
    (∀ d : Doc,
      ((extract_sales_proxies d).stock_status = "Out of stock" ↔
        (strContains (pageTextOf d) "out of stock" = true ∨
         strContains (pageTextOf d) "sold out" = true ∨
         strContains (pageTextOf d) "unavailable" = true)) ∧
      ((extract_sales_proxies d).stock_status = "Out of stock" ∨
       (extract_sales_proxies d).stock_status = "In stock")) ∧
    (extract_sales_proxies tosDoc).stock_status = "Out of stock" := by
  constructor
  · intro d
    constructor
    · have h := stockScan_out_iff stock_out_indicators (pageTextOf d)
      rw [show (extract_sales_proxies d).stock_status =
            stockScan stock_out_indicators (pageTextOf d) from rfl, h]
      simp [stock_out_indicators]
    · exact stockScan_cases _ _
  · decide

/-- C7 — the Name Extractor is first-match search over the h1/h2 elements
for stripped text longer than 4 characters, with sentinel fallback; on the
spec's two example documents it returns the long heading text and the
sentinel respectively. -/
theorem extract_name_spec :
    (∀ d : Doc, extract_name d =
      (match (selectTags ["h1", "h2"] d).find?
          (fun n => 4 < (getTextStrip n).length) with
       | some n => getTextStrip n
       | none => "N/A")) ∧
    extract_name velvetDoc = "Velvet Matte Foundation" ∧
    extract_name spfDoc = "N/A" :=
  ⟨fun _ => nameScan_eq _, by decide, by decide⟩

/-- C8 — the Image Extractor returns the full `src` string of the first
img whose `src` contains "product" (the matched attribute necessarily
exists), and the total function returns the sentinel "N/A" whenever no
such element exists; the spec's two examples evaluate accordingly. -/
theorem extract_image_spec :
    (∀ d : Doc,
      (match (docNodes d).find? (elemPred imgSrcPred) with
       | some n => ∃ s, (attrsOf n).srcAttr = some s ∧
           strContains s "product" = true ∧ extract_image d = s
       | none => extract_image d = "N/A")) ∧
    extract_image imgDoc = "/assets/product-123.jpg" ∧
    extract_image velvetDoc = "N/A" := by
  refine ⟨?_, by decide, by decide⟩
  intro d
  rcases extract_image_cases d with ⟨n, hf, s, hs, hc, he⟩ | ⟨hf, he⟩
  · rw [hf]
    exact ⟨s, hs, hc, he⟩
  · rw [hf]
    exact he

/-- C9 — the shade result as a set does not depend on the enumeration
order of the candidate set: any two enumerations of the candidates yield
set-equal outputs, and the extractor's own output is one such
finalization. -/
theorem shades_order_insensitive (d : Doc) (l₁ l₂ : List String)
    (h₁ : l₁.Perm (shadeCandidates d)) (h₂ : l₂.Perm (shadeCandidates d)) :
    (shadesFinalize l₁).toFinset = (shadesFinalize l₂).toFinset ∧
    shadesFinalize (shadeCandidates d) = extract_shades d := by
  refine ⟨?_, rfl⟩
  have h : l₁.Perm l₂ := h₁.trans h₂.symm
  have hf : (l₁.filter (fun x => trimS x ≠ "")).Perm
      (l₂.filter (fun x => trimS x ≠ "")) := h.filter _
  have hd₁ : shadesFinalize l₁ =
      (if (l₁.filter (fun x => trimS x ≠ "")).isEmpty then ["N/A"]
       else l₁.filter (fun x => trimS x ≠ "")) := rfl
  have hd₂ : shadesFinalize l₂ =
      (if (l₂.filter (fun x => trimS x ≠ "")).isEmpty then ["N/A"]
       else l₂.filter (fun x => trimS x ≠ "")) := rfl
  rw [hd₁, hd₂]
  cases hb₁ : (l₁.filter (fun x => trimS x ≠ "")).isEmpty with
  | true =>
    have hb₂ : (l₂.filter (fun x => trimS x ≠ "")).isEmpty = true := by
      rw [List.isEmpty_iff] at hb₁ ⊢
      rw [hb₁] at hf
      exact hf.symm.eq_nil
    rw [hb₂]
    simp
  | false =>
    have hb₂ : (l₂.filter (fun x => trimS x ≠ "")).isEmpty = false := by
      cases hb₂ : (l₂.filter (fun x => trimS x ≠ "")).isEmpty with
      | false => rfl
      | true =>
        rw [List.isEmpty_iff] at hb₂
        rw [hb₂] at hf
        rw [hf.eq_nil] at hb₁
        exact absurd hb₁ (by decide)
    rw [hb₂]
    simp only [Bool.false_eq_true, if_false]
    exact List.toFinset_eq_of_perm _ _ hf

/-- C9 witness: two different enumeration orders of the shade-picker
document's candidate set produce the same set of shades. -/
theorem shades_order_insensitive_witness :
    (shadesFinalize ["Toffee", "Ivory"]).toFinset =
      (shadesFinalize ["Ivory", "Toffee"]).toFinset :=
  (shades_order_insensitive shadeDoc ["Toffee", "Ivory"] ["Ivory", "Toffee"]
    (by decide) (by decide)).1

/-- C10 — the Name Extractor inspects only h1 and h2: whenever every
h1/h2 element's stripped text has length at most 4, the result is the
sentinel, whatever other headings the document holds. -/
theorem extract_name_h1_h2_only (d : Doc)
    (h : ∀ n ∈ selectTags ["h1", "h2"] d, (getTextStrip n).length ≤ 4) :
    extract_name d = "N/A" := by
  rw [extract_name, nameScan_eq]
  have hnone : (selectTags ["h1", "h2"] d).find?
      (fun n => 4 < (getTextStrip n).length) = none := by
    apply List.find?_eq_none.mpr
    intro n hn
    simpa using Nat.not_lt.mpr (h n hn)
  rw [hnone]

/-- C10 witness: a document whose only long heading is an h3 yields the
sentinel. -/
theorem extract_name_h1_h2_only_witness : extract_name h3Doc = "N/A" :=
  extract_name_h1_h2_only h3Doc (by decide)
